import Mathlib

/-!
Shallow embedding of the xstate-tools language server core
(src/apps/extension/server/src/server.ts) and of the typegen rendering
helpers of the legacy extension client (src/client/src/extension.ts).

The machine-definition parser (`@xstate/machine-extractor`), the shared
tooling library (`@xstate/tools-shared`) and the xstate runtime are
external black boxes (spec section 1); their observable outputs are
carried as fields of `MachineResult` and as functions of `Oracle`.
`deepEqual` (fast-deep-equal) on those structural values is modelled as
decidable equality on an abstract value type `Config := String`.
JavaScript behaviour that matters to the control flow is modelled
explicitly: `undefined` as `Option.none`, string truthiness
(`jsTruthyStr`), property access on `undefined` as a thrown TypeError
(`typeUndefinedMsg`), and the try/catch of `handleDocumentChange` as the
`DisplayedOutcome.thrown` path.
-/

/-- Abstract structural value (a machine config, an implementations payload,
a type surface): the server only ever compares these with `deepEqual`,
modelled as equality of an abstract token. -/
abbrev Config := String

/-- The `data` field of a `TypegenData` (tools-shared): the server reads its
`tsTypesValue` sub-field; the rest of the payload is opaque (`surface`). -/
structure TypegenDataData where
  tsTypesValue : Config
  surface : Config
deriving DecidableEq, Repr

/-- A `TypegenData` as the server observes it: `typesNode.value` (what is
currently recorded in source at the type-annotation site) and `data`
(the freshly computed payload, with `data.tsTypesValue` inside). -/
structure TypegenData where
  typesNodeValue : Config
  data : TypegenDataData
deriving DecidableEq, Repr

deriving instance DecidableEq for Except

/-- One machine extraction result as returned by the black-box extractor,
together with the outcomes of the black-box calls the server makes on it:
`getTypegenData` for a typed machine (`typegen`, throwing modelled as
`.error msg`), `introspectMachine (createIntrospectableMachine _)` for an
untyped one (`introspection`), `toConfig()` (`config`, nullable),
`toConfig (anonymizeInlineImplementations := true)` (`anonymizedConfig`),
`toConfig (hashInlineImplementations := true)` (`hashedConfig`),
`getLayoutComment()?.value` (`layoutComment`),
`getInlineImplementations` (`inlineImplementations`; its dependence on the
document text is absorbed into the field) and
`getAllConds([named]).map(.name)` (`namedGuards`). -/
structure MachineResult where
  isTyped : Bool
  typegen : Except String TypegenData
  introspection : Except String Unit
  config : Option Config
  anonymizedConfig : Config
  hashedConfig : Option Config
  layoutComment : Option String
  inlineImplementations : Config
  namedGuards : List String
deriving DecidableEq, Repr

/-- One slot of a cached document: the per-machine record built by
`handleDocumentChange` (`{machineResult, types?}` or
`{machineResult, configError}`); absent JS fields are `none`. -/
structure ExtractionResult where
  machineResult : Option MachineResult
  types : Option TypegenData
  configError : Option String
deriving DecidableEq, Repr

/-- A `CachedDocument` (server.ts `documentsCache` values): the document text
snapshot and the ordered extraction results. -/
structure CachedDocument where
  documentText : String
  extractionResults : List ExtractionResult
deriving DecidableEq, Repr

/-- The mutable server state: the process-wide documents cache (a map keyed
by URI, modelled as an association list) and the displayed-machine
singleton `displayedMachine : {uri, machineIndex} | undefined`. -/
structure ServerState where
  documentsCache : List (String × CachedDocument)
  displayedMachine : Option (String × Nat)
deriving DecidableEq, Repr

/-- JS `Map.get`: the value at the key, or `undefined`. -/
def mapGet (m : List (String × CachedDocument)) (k : String) : Option CachedDocument :=
  (m.find? (fun p => p.1 == k)).map (fun p => p.2)

/-- JS `Map.set` (and, equivalently for lookups, in-place mutation of the
stored object): replace the value at the key, or append the binding. -/
def mapSet (m : List (String × CachedDocument)) (k : String) (v : CachedDocument) :
    List (String × CachedDocument) :=
  match m with
  | [] => [(k, v)]
  | (k0, v0) :: rest => if k0 == k then (k0, v) :: rest else (k0, v0) :: mapSet rest k v

/-- JS truthiness of a possibly-undefined string: `undefined` and the empty
string are falsy. -/
def jsTruthyStr : Option String → Bool
  | some s => !(s == "")
  | none => false

/-- Message of the TypeError JS raises when a property of `undefined` is
read (or destructured). -/
def typeUndefinedMsg (field : String) : String :=
  "TypeError: Cannot read properties of undefined (reading " ++ field ++ ")"

/-- Per-machine body of the `machineResults.map` in `handleDocumentChange`
(server.ts lines 205 to 228): typed machines run `getTypegenData`,
untyped ones run the introspection for its validation side effect; a
throw is caught into `configError` and never aborts the batch. -/
def extractOne (m : MachineResult) : ExtractionResult :=
  if m.isTyped then
    match m.typegen with
    | .ok t => ⟨some m, some t, none⟩
    | .error e => ⟨some m, none, some e⟩
  else
    match m.introspection with
    | .ok _ => ⟨some m, none, none⟩
    | .error e => ⟨some m, none, some e⟩

/-- The error message a machine produces in the per-machine try block, if
any: the branch the machine takes (typed or untyped) throws that message. -/
def machineFailureMsg (m : MachineResult) : Option String :=
  if m.isTyped then
    match m.typegen with
    | .ok _ => none
    | .error e => some e
  else
    match m.introspection with
    | .ok _ => none
    | .error e => some e

/-- `areTypesWritable` (server.ts lines 189 to 190): the machine is in sync
when `typesNode.value` deep-equals `data.tsTypesValue`. -/
def areTypesWritable (typegenData : TypegenData) : Bool :=
  typegenData.typesNodeValue == typegenData.data.tsTypesValue

/-- The observable outbound messages of `handleDocumentChange`:
`sendNotification extractionError`, `sendNotification
displayedMachineUpdated`, `sendDiagnostics`, `sendNotification
typesUpdated`. Diagnostics themselves are opaque strings. -/
inductive Effect where
  | extractionError (message : Option String)
  | displayedMachineUpdated (config : Config) (layoutString : Option String)
      (implementations : Config) (namedGuards : List String)
  | sendDiagnostics (uri : String) (diagnostics : List String)
  | typesUpdated (uri : String) (types : List TypegenData)
deriving DecidableEq, Repr

/-- Result of `machineResult.modify(machineEdits)`: a byte range into the
current document text and the replacement text. -/
structure Modified where
  startIndex : Nat
  endIndex : Nat
  newText : String
deriving DecidableEq, Repr

/-- The black-box library functions the server calls, as pure oracles:
`extract` is `extractMachinesFromFile` followed by
`filterOutIgnoredMachines` (`none` when the extractor yields nothing),
`getDiagnostics` the diagnostics computation, `modify` the structural
edit of one machine, and `reExtract text i` the
`getMachineNodesFromFile` plus `getMachineExtractResult` of machine `i`
of the given text (`none` when that fails). -/
structure Oracle where
  extract : String → Option (List MachineResult)
  getDiagnostics : List MachineResult → List String
  modify : MachineResult → List String → Modified
  reExtract : String → Nat → Option MachineResult

/-- Outcome of the displayed-machine block of `handleDocumentChange`
(server.ts lines 239 to 283): the effects it emitted, and whether it fell
through normally, hit the early `return` of the configError branch, or
threw (a JS TypeError) into the surrounding catch. -/
inductive DisplayedOutcome where
  | ok (effects : List Effect)
  | earlyReturn (effects : List Effect)
  | thrown (effects : List Effect) (message : String)
deriving DecidableEq, Repr

/-- Effects emitted by a `DisplayedOutcome`, whichever constructor. -/
def DisplayedOutcome.effects : DisplayedOutcome → List Effect
  | .ok e => e
  | .earlyReturn e => e
  | .thrown e _ => e

/-- Tail of the displayed-machine block, from `const updatedConfig =
machineResult.toConfig()` on (server.ts lines 259 to 283): push the
live update when both configs exist and the anonymized configs differ.
`clearEffects` is the error-clear notification already emitted. -/
def displayedUpdate (slot : ExtractionResult) (prevSlot : Option ExtractionResult)
    (clearEffects : List Effect) : DisplayedOutcome :=
  match slot.machineResult with
  | none => .thrown clearEffects (typeUndefinedMsg "toConfig")
  | some machineResult =>
    match machineResult.config, prevSlot.bind ExtractionResult.machineResult with
    | some config, some prevMachine =>
      if prevMachine.anonymizedConfig == machineResult.anonymizedConfig then
        .ok clearEffects
      else
        .ok (clearEffects ++ [.displayedMachineUpdated config machineResult.layoutComment
          machineResult.inlineImplementations machineResult.namedGuards])
    | _, _ => .ok clearEffects

/-- The displayed-machine block of `handleDocumentChange` (server.ts lines
239 to 283). Indexing past the end of an extraction batch yields JS
`undefined`, and reading a property of it throws. -/
def displayedStep (st : ServerState) (prev : Option CachedDocument) (uri : String)
    (ers : List ExtractionResult) : DisplayedOutcome :=
  match st.displayedMachine with
  | none => .ok []
  | some (duri, machineIndex) =>
    if duri == uri then
      match ers.get? machineIndex with
      | none => .thrown [] (typeUndefinedMsg "configError")
      | some slot =>
        if jsTruthyStr slot.configError then
          .earlyReturn [.extractionError slot.configError]
        else
          match prev with
          | none => displayedUpdate slot none []
          | some prevDoc =>
            match prevDoc.extractionResults.get? machineIndex with
            | none => .thrown [] (typeUndefinedMsg "configError")
            | some prevSlot =>
              displayedUpdate slot (some prevSlot)
                (if jsTruthyStr prevSlot.configError then [.extractionError none] else [])
    else .ok []

/-- The typegen step of `handleDocumentChange` (server.ts lines 293 to 309):
notify when the writable (in-sync) types are nonempty and their `data`
list differs from the previous batch's writable `data` list
(`deepEqual(undefined, x)` is false, hence the `Option`); the payload is
the full `types` list of the current batch. -/
def typesUpdatedEffects (prev : Option CachedDocument) (uri : String)
    (types : List TypegenData) : List Effect :=
  let writableTypes := types.filter areTypesWritable
  let prevData : Option (List TypegenDataData) :=
    prev.map (fun pd =>
      (((pd.extractionResults.map ExtractionResult.types).filterMap id).filter
        areTypesWritable).map TypegenData.data)
  if writableTypes.length != 0 && !(prevData == some (writableTypes.map TypegenData.data)) then
    [.typesUpdated uri types]
  else []

/-- `handleDocumentChange` (server.ts lines 192 to 318): the new server
state and the emitted effects, in order. The settings fetch and the
document handle passed to `getDiagnostics` carry no information the
model observes and are dropped. In the catch branch the cache update has
already happened (it precedes every throw site), the error notification
goes to the displayed document only, and diagnostics are cleared. -/
def handleDocumentChange (o : Oracle) (st : ServerState) (uri text : String) :
    ServerState × List Effect :=
  let previouslyCachedDocument := mapGet st.documentsCache uri
  match o.extract text with
  | none => (st, [])
  | some machineResults =>
    let extractionResults := machineResults.map extractOne
    let types := (extractionResults.map ExtractionResult.types).filterMap id
    let st1 : ServerState :=
      { st with documentsCache := mapSet st.documentsCache uri ⟨text, extractionResults⟩ }
    match displayedStep st previouslyCachedDocument uri extractionResults with
    | .earlyReturn effs => (st1, effs)
    | .thrown effs _msg =>
      let errEffs : List Effect :=
        match st.displayedMachine with
        | some (duri, _) => if duri == uri then [.extractionError (some _msg)] else []
        | none => []
      (st1, effs ++ errEffs ++ [.sendDiagnostics uri []])
    | .ok effs =>
      (st1, effs ++ [.sendDiagnostics uri (o.getDiagnostics machineResults)]
        ++ typesUpdatedEffects previouslyCachedDocument uri types)

/-- The diagnostics batches published within an effect list. -/
def diagBatches (effs : List Effect) : List (List String) :=
  effs.filterMap (fun e =>
    match e with
    | .sendDiagnostics _ d => some d
    | _ => none)

/-- The typesUpdated notifications within an effect list. -/
def typesUpdatedIn (effs : List Effect) : List Effect :=
  effs.filter (fun e =>
    match e with
    | .typesUpdated _ _ => true
    | _ => false)

/-- The early `return` of the displayed-machine configError branch
(server.ts lines 243 to 247): the displayed machine belongs to this
document and its fresh slot carries a truthy `configError`. -/
def displayedConfigErrorReturn (st : ServerState) (uri : String)
    (ers : List ExtractionResult) : Prop :=
  ∃ i slot, st.displayedMachine = some (uri, i) ∧ ers.get? i = some slot ∧
    jsTruthyStr slot.configError = true

/-- `Array.from(new Set(array))` insertion step: a JS Set keeps the first
occurrence of each element, in insertion order. -/
def jsSetAdd {α : Type} [DecidableEq α] (s : List α) (a : α) : List α :=
  if a ∈ s then s else s ++ [a]

/-- `unique` (extension.ts lines 559 to 561): `Array.from(new Set(array))`,
that is first-seen-order deduplication. -/
def unique {α : Type} [DecidableEq α] (array : List α) : List α :=
  array.foldl jsSetAdd []

/-- Specification-worded deduplication, for comparison with `unique`:
duplicates removed keeping the first occurrence, in first-seen order
("union-preserving first-seen order, not set-arbitrary order"). -/
def firstSeenDedup {α : Type} [DecidableEq α] : List α → List α
  | [] => []
  | a :: rest => a :: firstSeenDedup (rest.filter (fun b => !(b == a)))
termination_by l => l.length
decreasing_by
  simp only [List.length_cons]
  exact Nat.lt_succ_of_le (List.length_filter_le _ _)

/-- One line of an introspection result: a name (of an action, service,
guard or delay) and the event names that can cause it. -/
structure IntrospectLine where
  name : String
  events : List String
deriving DecidableEq, Repr

/-- Rendering of one `eventsCausing*` line (extension.ts lines 541 to 557):
the deduplicated quoted event names joined with a pipe, the empty join
falling back (JS `||`) to `string`. -/
def displayEventsCausingLine (line : IntrospectLine) : String :=
  let joined := String.intercalate " | "
    ((unique (line.events.map (fun event => event))).map (fun event => "'" ++ event ++ "'"))
  "'" ++ line.name ++ "': " ++ (if joined == "" then "string" else joined) ++ ";"

/-- `displayEventsCausing` (extension.ts lines 541 to 557): the rendered
lines joined with newlines. -/
def displayEventsCausing (lines : List IntrospectLine) : String :=
  String.intercalate "\n" (lines.map displayEventsCausingLine)

/-- Characters of the text contain no newline: the regex dot of
`inlineInvocationName` matches any character except a newline. -/
def noNewline (cs : List Char) : Bool :=
  cs.all (fun c => !(c == '\n'))

/-- The regex `inlineInvocationName` (extension.ts line 500), namely
`done\.invoke\..{0,}:invocation\[.{0,}\]` tested unanchored: the string
contains `done.invoke.`, then any newline-free run, then `:invocation[`,
then any newline-free run, then `]`. -/
def inlineInvocationTest (event : String) : Bool :=
  let cs := event.data
  (List.range (cs.length + 1)).any (fun i =>
    let rest := cs.drop i
    "done.invoke.".data.isPrefixOf rest &&
      (let afterPre := rest.drop 12
      (List.range (afterPre.length + 1)).any (fun j =>
        noNewline (afterPre.take j) && ":invocation[".data.isPrefixOf (afterPre.drop j) &&
          (let afterInv := (afterPre.drop j).drop 12
          (List.range (afterInv.length + 1)).any (fun k =>
            noNewline (afterInv.take k) && (afterInv.drop k).head? == some ']')))))

/-- One entry of the generated `internalEvents` collection, structurally
(the spec treats text rendering as a thin excluded concern): the event
name rendered as its `type`, whether the payload carries
`data: unknown`, and the `__tip` hint string when one is rendered. -/
structure InternalEventEntry where
  type : String
  dataUnknown : Bool
  tip : Option String
deriving DecidableEq, Repr

/-- The advisory hint of the anonymous/inline invocation branch
(extension.ts line 512). -/
def inlineInvocationTip : String :=
  "Give this service a name and move it into the machine options to strongly type it"

/-- The human hint of the `done.invoke` branch (extension.ts line 516). -/
def doneInvokeTip (event : String) : String :=
  "Provide an event of type \x7b type: '" ++ event ++ "'; data: any \x7d to strongly type this"

/-- JS `String.prototype.startsWith`, as a character-level prefix test. -/
def strStartsWith (s p : String) : Bool :=
  p.data.isPrefixOf s.data

/-- The four-branch classification of `collectInternalEvents`
(extension.ts lines 502 to 527), per event name, in source order:
the inline-invocation regex, then the `done.invoke` prefix, then the
`xstate.` prefix or the empty name (no payload), then the
`error.platform` prefix (`data: unknown` and no tip); any other name is
not collected. -/
def classifyInternalEvent (event : String) : Option InternalEventEntry :=
  if inlineInvocationTest event then
    some ⟨event, true, some inlineInvocationTip⟩
  else if strStartsWith event "done.invoke" then
    some ⟨event, true, some (doneInvokeTip event)⟩
  else if strStartsWith event "xstate." || event == "" then
    some ⟨event, false, none⟩
  else if strStartsWith event "error.platform" then
    some ⟨event, true, none⟩
  else none

/-- `collectInternalEvents` (extension.ts lines 502 to 532): every event of
every line of every line array, classified, collected into a JS Set
(first-seen deduplication of the rendered entries). -/
def collectInternalEvents (lineArrays : List (List IntrospectLine)) : List InternalEventEntry :=
  unique (((lineArrays.map (fun lines => lines.map IntrospectLine.events)).flatten.flatten).filterMap
    classifyInternalEvent)

/-- Payload of `getMachineAtIndex` and `getMachineAtCursorPosition`: config
with hashed inline implementations (nullable before the JS non-null
assertion), layout comment, inline implementations, deduplicated named
guards (`Array.from (getSetOfNames ...)`). -/
structure MachineView where
  config : Option Config
  layoutString : Option String
  implementations : Config
  namedGuards : List String
deriving DecidableEq, Repr

/-- Message thrown when the document has no cached extraction (server.ts
line 586). -/
def noMachinesMsg : String :=
  "There were no machines recognized in this document"

/-- The descriptive not-found message of `getMachineAtIndex` (server.ts
lines 593 to 595). -/
def machineNotFoundMsg (machineIndex count : Nat) : String :=
  "Machine " ++ toString machineIndex ++ " was not found. This document has only " ++
    toString count ++ " machine(s)"

/-- The `getMachineAtIndex` request handler (server.ts lines 582 to 611).
JS reads `extractionResults[machineIndex].machineResult` before any
bounds check, so an out-of-range index throws a TypeError; the
descriptive message is reached only when the slot exists with a missing
`machineResult`. -/
def getMachineAtIndex (st : ServerState) (uri : String) (machineIndex : Nat) :
    Except String MachineView :=
  match mapGet st.documentsCache uri with
  | none => .error noMachinesMsg
  | some cachedDocument =>
    if cachedDocument.extractionResults.length == 0 then
      .error noMachinesMsg
    else
      match cachedDocument.extractionResults.get? machineIndex with
      | none => .error (typeUndefinedMsg "machineResult")
      | some slot =>
        match slot.machineResult with
        | none =>
          .error (machineNotFoundMsg machineIndex cachedDocument.extractionResults.length)
        | some machineResult =>
          .ok ⟨machineResult.hashedConfig, machineResult.layoutComment,
            machineResult.inlineImplementations, unique machineResult.namedGuards⟩

/-- The text edit returned by `applyMachineEdits`: a replace of the
modified range by the new text in the displayed document. -/
structure ApplyEditsResult where
  uri : String
  rangeStart : Nat
  rangeEnd : Nat
  newText : String
deriving DecidableEq, Repr

/-- The `applyMachineEdits` request handler (server.ts lines 665 to 707):
requires a displayed machine, modifies that machine, splices the new
text into the cached document text, re-extracts only machine
`machineIndex` of the spliced text and patches that single slot's
`machineResult` in place; `documentText` and every other field stay as
they were. Property reads on missing cache entries or slots throw. -/
def applyMachineEdits (o : Oracle) (st : ServerState) (machineEdits : List String) :
    Except String (ServerState × ApplyEditsResult) :=
  match st.displayedMachine with
  | none =>
    .error "`applyMachineEdits` can only be requested when there is a displayed machine"
  | some (uri, machineIndex) =>
    match mapGet st.documentsCache uri with
    | none => .error (typeUndefinedMsg "extractionResults")
    | some cachedDocument =>
      match cachedDocument.extractionResults.get? machineIndex with
      | none => .error (typeUndefinedMsg "machineResult")
      | some slot =>
        match slot.machineResult with
        | none => .error (typeUndefinedMsg "modify")
        | some machineResult =>
          let modified := o.modify machineResult machineEdits
          let newDocumentText :=
            cachedDocument.documentText.take modified.startIndex ++ modified.newText ++
              cachedDocument.documentText.drop modified.endIndex
          let newEntry : CachedDocument :=
            { cachedDocument with
              extractionResults := cachedDocument.extractionResults.set machineIndex
                { slot with machineResult := o.reExtract newDocumentText machineIndex } }
          .ok ({ st with documentsCache := mapSet st.documentsCache uri newEntry },
            ⟨uri, modified.startIndex, modified.endIndex, modified.newText⟩)

/-- A position as produced by `getRangeFromSourceLocation` (line and
character). -/
structure SourcePos where
  line : Nat
  character : Nat
deriving DecidableEq, Repr

/-- A source range (`{start, end}`); `end` is a Lean keyword, so the field
is named `stop`. -/
structure SourceRange where
  start : SourcePos
  stop : SourcePos
deriving DecidableEq, Repr

/-- A `TextEdit` (vscode-languageserver-textdocument): a range and the
replacement text. -/
structure TextEdit where
  range : SourceRange
  newText : String
deriving DecidableEq, Repr

/-- The `type` argument of `getTextEditsForImplementation`: which options
category is targeted. -/
inductive ImplementationType where
  | services
  | actions
  | guards
deriving DecidableEq, Repr

/-- The category name as interpolated into the inserted text. -/
def ImplementationType.asString : ImplementationType → String
  | .services => "services"
  | .actions => "actions"
  | .guards => "guards"

/-- The parser-produced facts about one options category
(`machineCallResult.options[type]`) the edit computation reads: the
node location (`node.loc`, possibly absent), the node raw source text
(`getRawTextFromNode`), and the property keys. -/
structure CategoryNode where
  loc : Option SourceRange
  rawText : String
  propertyKeys : List String
deriving DecidableEq, Repr

/-- The parser-produced facts about the machine options object
(`machineCallResult.options`): its node location and raw text and its
three categories (each possibly absent). -/
structure OptionsNode where
  loc : SourceRange
  rawText : String
  actions : Option CategoryNode
  services : Option CategoryNode
  guards : Option CategoryNode
deriving DecidableEq, Repr

/-- The category of an options object for a given implementation type. -/
def OptionsNode.category (options : OptionsNode) : ImplementationType → Option CategoryNode
  | .services => options.services
  | .actions => options.actions
  | .guards => options.guards

/-- The parser-produced facts about one machine call the edit computation
reads: `machineCallResult.definition?.node.loc` and
`machineCallResult.options`. -/
structure MachineCallShape where
  definitionLoc : Option SourceRange
  options : Option OptionsNode
deriving DecidableEq, Repr

/-- Inserted text of the no-options branch (server.ts line 524):
a fresh options object literal holding the one category and name. -/
def newOptionsText (type : ImplementationType) (name : String) : String :=
  ", \x7b " ++ type.asString ++ ": \x7b '" ++ name ++ "': () => \x7b\x7d \x7d \x7d"

/-- Replacement text of the missing-category branch (server.ts lines 542 to
545): the opening character of the options object, then the new category
as its first property, then the rest of the raw text. -/
def newCategoryText (rawText : String) (type : ImplementationType) (name : String) : String :=
  rawText.take 1 ++ " " ++ type.asString ++ ": \x7b '" ++ name ++ "': () => \x7b\x7d \x7d, " ++
    rawText.drop 1

/-- Replacement text of the missing-name branch (server.ts lines 572 to
574): the opening character of the category object, then the name as its
first property, then the rest of the raw text. -/
def newNameText (rawText : String) (name : String) : String :=
  rawText.take 1 ++ " '" ++ name ++ "': () => \x7b\x7d, " ++ rawText.drop 1

/-- `getTextEditsForImplementation` (server.ts lines 502 to 580). The
`_text` argument is read only through `getRawTextFromNode`, whose results
the shape carries as `rawText` fields. -/
def getTextEditsForImplementation (machine : MachineCallShape) (type : ImplementationType)
    (name : String) (_text : String) : List TextEdit :=
  match machine.definitionLoc with
  | none => []
  | some machineDefinitionLoc =>
    match machine.options with
    | none =>
      [⟨⟨machineDefinitionLoc.stop, machineDefinitionLoc.stop⟩, newOptionsText type name⟩]
    | some options =>
      match (options.category type).bind CategoryNode.loc with
      | none =>
        [⟨options.loc, newCategoryText options.rawText type name⟩]
      | some categoryLoc =>
        match options.category type with
        | none => []
        | some category =>
          if name ∈ category.propertyKeys then []
          else
            [⟨categoryLoc, newNameText category.rawText name⟩]

/-- A typegen payload that is in sync: `typesNode.value` equals
`data.tsTypesValue`. -/
def tdInSync : TypegenData := ⟨"surfA", ⟨"surfA", "dataA"⟩⟩

/-- A typegen payload that is out of sync: `typesNode.value` differs from
`data.tsTypesValue`. -/
def tdOutOfSync : TypegenData := ⟨"surfB", ⟨"surfC", "dataB"⟩⟩

/-- A plain valid untyped machine result. -/
def mPlain : MachineResult :=
  ⟨false, .error "unused", .ok (), some "cfg", "anon", some "hcfg", none, "impls",
    ["guardA", "guardA", "guardB"]⟩

/-- An untyped machine whose introspection throws. -/
def mBadIntro : MachineResult :=
  ⟨false, .error "unused", .error "boom", some "cfg", "anonBad", some "hcfg", none, "impls", []⟩

/-- A typed machine whose typegen data is in sync. -/
def mTypedIn : MachineResult :=
  ⟨true, .ok tdInSync, .ok (), some "cfgT", "anonT", some "hcfgT", none, "implsT", []⟩

/-- A typed machine whose typegen data is out of sync. -/
def mTypedOut : MachineResult :=
  ⟨true, .ok tdOutOfSync, .ok (), some "cfgU", "anonU", some "hcfgU", none, "implsU", []⟩

/-- An oracle whose extractor always yields the given batch and whose other
functions are constant. -/
def mkOracle (extracted : Option (List MachineResult)) : Oracle :=
  ⟨fun _ => extracted, fun _ => ["diag"], fun _ _ => ⟨0, 0, ""⟩, fun _ _ => none⟩

/-- Oracle whose extractor yields nothing. -/
def oNone : Oracle := mkOracle none

/-- The empty server state. -/
def stEmpty : ServerState := ⟨[], none⟩

/-- State for the displayed-configError scenario: machine 0 of file:a is
displayed, nothing cached. -/
def stC1 : ServerState := ⟨[], some ("file:a", 0)⟩

/-- Oracle extracting exactly one machine with a failing introspection. -/
def oC1 : Oracle := mkOracle (some [mBadIntro])

/-- State with one cached document holding exactly one extracted machine. -/
def stC3 : ServerState := ⟨[("file:doc", ⟨"T", [⟨some mPlain, none, none⟩]⟩)], none⟩

/-- State whose cache holds a previous batch with one in-sync typed
machine; no machine displayed. -/
def stPrevInSync : ServerState :=
  ⟨[("u", ⟨"old", [⟨some mTypedIn, some tdInSync, none⟩]⟩)], none⟩

/-- Oracle extracting one out-of-sync typed machine. -/
def oOutOnly : Oracle := mkOracle (some [mTypedOut])

/-- Oracle extracting one in-sync and one out-of-sync typed machine. -/
def oInAndOut : Oracle := mkOracle (some [mTypedIn, mTypedOut])

/-- Oracle extracting a single plain machine. -/
def oPlainOne : Oracle := mkOracle (some [mPlain])

/-- State displaying machine 1 of file:a with an empty cache. -/
def stDispOne : ServerState := ⟨[], some ("file:a", 1)⟩

/-- A sample source range. -/
def rangeA : SourceRange := ⟨⟨1, 2⟩, ⟨3, 4⟩⟩

/-- Another sample source range. -/
def rangeB : SourceRange := ⟨⟨5, 6⟩, ⟨7, 8⟩⟩

/-- A third sample source range. -/
def rangeC : SourceRange := ⟨⟨9, 10⟩, ⟨11, 12⟩⟩

/-- A category node already containing the name `walk`. -/
def catWithWalk : CategoryNode := ⟨some rangeA, "\x7b walk: doWalk \x7d", ["walk"]⟩

/-- An options object whose actions category is `catWithWalk`. -/
def optsWithActions : OptionsNode := ⟨rangeB, "\x7b actions: ... \x7d", some catWithWalk, none, none⟩

/-- A machine call whose options already implement `walk` under actions. -/
def shapeWithWalk : MachineCallShape := ⟨some rangeC, some optsWithActions⟩

/-- Oracle for the applyMachineEdits witness: the modification replaces the
byte range 2 to 4 with `NEW`, and re-extraction yields `mBadIntro`. -/
def oApply : Oracle :=
  ⟨fun _ => none, fun _ => [], fun _ _ => ⟨2, 4, "NEW"⟩, fun _ _ => some mBadIntro⟩

/-- State for the applyMachineEdits witness: machine 0 of file:doc is
displayed and cached with text `abcdef` and two slots. -/
def stApply : ServerState :=
  ⟨[("file:doc", ⟨"abcdef",
      [⟨some mPlain, some tdInSync, none⟩, ⟨some mTypedOut, some tdOutOfSync, some "e2"⟩]⟩)],
    some ("file:doc", 0)⟩

theorem extractOne_eq (m : MachineResult) :
    extractOne m =
      ⟨some m, if m.isTyped then m.typegen.toOption else none, machineFailureMsg m⟩ := by
  unfold extractOne machineFailureMsg
  cases ht : m.isTyped
  · cases hi : m.introspection <;> simp [ht, hi]
  · cases hg : m.typegen <;> simp [ht, hg, Except.toOption]

theorem diagBatches_append (a b : List Effect) :
    diagBatches (a ++ b) = diagBatches a ++ diagBatches b :=
  List.filterMap_append a b _

theorem diagBatches_displayedUpdate (slot : ExtractionResult)
    (prevSlot : Option ExtractionResult) (clear : List Effect)
    (hclear : diagBatches clear = []) :
    diagBatches (displayedUpdate slot prevSlot clear).effects = [] := by
  unfold displayedUpdate
  split
  · exact hclear
  · split
    · split
      · exact hclear
      · rw [DisplayedOutcome.effects, diagBatches_append, hclear]
        rfl
    · exact hclear

theorem diagBatches_displayedStep (st : ServerState) (prev : Option CachedDocument)
    (uri : String) (ers : List ExtractionResult) :
    diagBatches (displayedStep st prev uri ers).effects = [] := by
  unfold displayedStep
  split
  · rfl
  · split
    · split
      · rfl
      · split
        · rfl
        · split
          · exact diagBatches_displayedUpdate _ _ _ rfl
          · split
            · rfl
            · apply diagBatches_displayedUpdate
              split <;> rfl
    · rfl

theorem displayedUpdate_ne_earlyReturn (slot : ExtractionResult)
    (prevSlot : Option ExtractionResult) (clear effs : List Effect) :
    displayedUpdate slot prevSlot clear ≠ .earlyReturn effs := by
  unfold displayedUpdate
  split
  · simp
  · split
    · split <;> simp
    · simp

theorem displayedStep_earlyReturn_iff (st : ServerState) (prev : Option CachedDocument)
    (uri : String) (ers : List ExtractionResult) :
    (∃ effs, displayedStep st prev uri ers = .earlyReturn effs) ↔
      displayedConfigErrorReturn st uri ers := by
  constructor
  · rintro ⟨effs, h⟩
    unfold displayedStep at h
    split at h
    · exact absurd h (by simp)
    · next duri machineIndex heq =>
      split at h
      · rename_i hburi
        split at h
        · exact absurd h (by simp)
        · next slot hget =>
          split at h
          · next hcond =>
            have huri : duri = uri := eq_of_beq hburi
            subst huri
            exact ⟨machineIndex, slot, heq, hget, hcond⟩
          · split at h
            · exact absurd h (displayedUpdate_ne_earlyReturn _ _ _ _)
            · split at h
              · exact absurd h (by simp)
              · exact absurd h (displayedUpdate_ne_earlyReturn _ _ _ _)
      · exact absurd h (by simp)
  · rintro ⟨i, slot, hdisp, hget, hcond⟩
    refine ⟨[.extractionError slot.configError], ?_⟩
    have hget2 : ers[i]? = some slot := by
      simpa [List.get?_eq_getElem?] using hget
    unfold displayedStep
    rw [hdisp]
    simp [hget2, hcond]

theorem diagBatches_typesUpdatedEffects (prev : Option CachedDocument) (uri : String)
    (types : List TypegenData) :
    diagBatches (typesUpdatedEffects prev uri types) = [] := by
  simp only [typesUpdatedEffects]
  split <;> rfl

/-- C1: on a pass where the extractor yields machines, diagnostics are
published exactly once — as amended: unless the displayed machine of this
document carries a truthy configError, in which case the handler returns
right after the error notification and publishes no diagnostics at all;
and on the unexpected-exception path (modelled by the
`DisplayedOutcome.thrown` case) the one published batch is empty. -/
theorem c1_diagnostics_publish_amended (o : Oracle) (st : ServerState) (uri text : String)
    (ms : List MachineResult) (hext : o.extract text = some ms) :
    (displayedConfigErrorReturn st uri (ms.map extractOne) →
      diagBatches (handleDocumentChange o st uri text).2 = []) ∧
    (¬ displayedConfigErrorReturn st uri (ms.map extractOne) →
      (diagBatches (handleDocumentChange o st uri text).2).length = 1) ∧
    (∀ effs0 msg,
      displayedStep st (mapGet st.documentsCache uri) uri (ms.map extractOne) =
        .thrown effs0 msg →
      diagBatches (handleDocumentChange o st uri text).2 = [[]]) := by
  cases hstep : displayedStep st (mapGet st.documentsCache uri) uri (ms.map extractOne) with
  | ok effs =>
    have he : diagBatches effs = [] := by
      have hds := diagBatches_displayedStep st (mapGet st.documentsCache uri) uri
        (ms.map extractOne)
      rw [hstep] at hds
      exact hds
    refine ⟨?_, ?_, ?_⟩
    · intro hcond
      rcases (displayedStep_earlyReturn_iff st (mapGet st.documentsCache uri) uri
        (ms.map extractOne)).mpr hcond with ⟨effs2, heq⟩
      rw [hstep] at heq
      exact absurd heq (by simp)
    · intro _
      simp only [handleDocumentChange, hext, hstep]
      rw [diagBatches_append, diagBatches_append, he, diagBatches_typesUpdatedEffects]
      rfl
    · intro effs0 msg heq
      exact absurd heq (by simp)
  | earlyReturn effs =>
    have he : diagBatches effs = [] := by
      have hds := diagBatches_displayedStep st (mapGet st.documentsCache uri) uri
        (ms.map extractOne)
      rw [hstep] at hds
      exact hds
    refine ⟨?_, ?_, ?_⟩
    · intro _
      simp only [handleDocumentChange, hext, hstep]
      exact he
    · intro hcond
      exact absurd ((displayedStep_earlyReturn_iff st (mapGet st.documentsCache uri) uri
        (ms.map extractOne)).mp ⟨effs, hstep⟩) hcond
    · intro effs0 msg heq
      exact absurd heq (by simp)
  | thrown effs msg =>
    have he : diagBatches effs = [] := by
      have hds := diagBatches_displayedStep st (mapGet st.documentsCache uri) uri
        (ms.map extractOne)
      rw [hstep] at hds
      exact hds
    have h2 : diagBatches (handleDocumentChange o st uri text).2 = [[]] := by
      simp only [handleDocumentChange, hext, hstep]
      rw [diagBatches_append, diagBatches_append, he]
      cases st.displayedMachine with
      | none => rfl
      | some p =>
        rcases p with ⟨duri, j⟩
        by_cases hj : (duri == uri) = true <;> simp [hj, diagBatches]
    refine ⟨?_, ?_, ?_⟩
    · intro hcond
      rcases (displayedStep_earlyReturn_iff st (mapGet st.documentsCache uri) uri
        (ms.map extractOne)).mpr hcond with ⟨effs2, heq⟩
      rw [hstep] at heq
      exact absurd heq (by simp)
    · intro _
      rw [h2]
      rfl
    · intro effs0 msg0 _
      exact h2

/-- Counterexample to C1 as stated: the extractor yields a machine, the
displayed machine (index 0 of file:a) carries a configError, and the pass
publishes no diagnostics batch at all — the early return skips the
unconditional publish. -/
theorem c1_counterexample :
    oC1.extract "T" = some [mBadIntro] ∧
    diagBatches (handleDocumentChange oC1 stC1 "file:a" "T").2 = [] ∧
    (handleDocumentChange oC1 stC1 "file:a" "T").2 = [Effect.extractionError (some "boom")] := by
  refine ⟨rfl, rfl, rfl⟩

/-- Witness for the amended C1 theorem at the concrete early-return input. -/
theorem c1_diagnostics_publish_amended_witness :
    diagBatches (handleDocumentChange oC1 stC1 "file:a" "T").2 = [] := by
  have h := c1_diagnostics_publish_amended oC1 stC1 "file:a" "T" [mBadIntro] rfl
  exact h.1 ⟨0, ⟨some mBadIntro, none, some "boom"⟩, rfl, rfl, rfl⟩

/-- C4: when the extractor yields nothing for a content change, the pass
stops at once: state (hence the prior cache entry) unchanged and no
effect emitted — no diagnostics publish or clear, no displayed-machine
update, no typegen notification. -/
theorem c4_extractor_nothing_noop (o : Oracle) (st : ServerState) (uri text : String)
    (hext : o.extract text = none) :
    handleDocumentChange o st uri text = (st, []) := by
  simp [handleDocumentChange, hext]

/-- Witness for C4 at a concrete oracle whose extractor yields nothing. -/
theorem c4_extractor_nothing_noop_witness :
    handleDocumentChange oNone stEmpty "file:a" "x" = (stEmpty, []) :=
  c4_extractor_nothing_noop oNone stEmpty "file:a" "x" rfl

/-- C3 is right about the intent but wrong about the code: for a cached
document with one extracted machine, requesting index 1 fails with the
TypeError of reading `machineResult` on `undefined`, not with the
descriptive message `Machine 1 was not found. This document has only 1
machine(s)` sitting two lines below, which is unreachable for an
out-of-range index. -/
theorem c3_out_of_range_throws_typeerror :
    getMachineAtIndex stC3 "file:doc" 1 = .error (typeUndefinedMsg "machineResult") ∧
    getMachineAtIndex stC3 "file:doc" 1 ≠ .error (machineNotFoundMsg 1 1) := by
  constructor
  · rfl
  · decide

/-- C5: when the displayed machine of this document no longer resolves
(index at or past the end of the new batch), the pass completes without
an unhandled exception: the thrown TypeError is caught at the top level,
exactly one error notification is emitted for the displayed document,
and diagnostics are defensively cleared. -/
theorem c5_displayed_index_gone (o : Oracle) (st : ServerState) (uri text : String)
    (ms : List MachineResult) (i : Nat)
    (hdisp : st.displayedMachine = some (uri, i))
    (hext : o.extract text = some ms)
    (hlen : ms.length ≤ i) :
    handleDocumentChange o st uri text =
      ({ st with documentsCache := mapSet st.documentsCache uri ⟨text, ms.map extractOne⟩ },
        [.extractionError (some (typeUndefinedMsg "configError")),
          .sendDiagnostics uri []]) := by
  have hnone : (ms.map extractOne)[i]? = none := by
    rw [List.getElem?_eq_none_iff]
    simpa using hlen
  have hstep : displayedStep st (mapGet st.documentsCache uri) uri (ms.map extractOne) =
      .thrown [] (typeUndefinedMsg "configError") := by
    unfold displayedStep
    rw [hdisp]
    simp [hnone]
  simp [handleDocumentChange, hext, hstep, hdisp]

/-- Witness for C5: one extracted machine, displayed index 1. -/
theorem c5_displayed_index_gone_witness :
    handleDocumentChange oPlainOne stDispOne "file:a" "T" =
      ({ stDispOne with
          documentsCache := mapSet stDispOne.documentsCache "file:a"
            ⟨"T", [mPlain].map extractOne⟩ },
        [.extractionError (some (typeUndefinedMsg "configError")),
          .sendDiagnostics "file:a" []]) :=
  c5_displayed_index_gone oPlainOne stDispOne "file:a" "T" [mPlain] 1 rfl rfl (by decide)

theorem types_none_of_fail (m : MachineResult) (e : String)
    (h : machineFailureMsg m = some e) :
    (if m.isTyped then m.typegen.toOption else none) = none := by
  unfold machineFailureMsg at h
  cases ht : m.isTyped
  · simp [ht]
  · rw [ht] at h
    simp only [if_true] at h
    cases hg : m.typegen <;> rw [hg] at h <;> simp [Except.toOption] at h ⊢

/-- C6: in a batch where exactly one machine (index k) has an invalid
config, the pass still produces one extraction result per machine; the
failing slot carries that error message as its configError and has no
types, and every sibling gets its machineResult with no configError and,
for a typed machine, its computed typegen data. -/
theorem c6_per_machine_isolation (ms : List MachineResult) (k : Nat) (hk : k < ms.length)
    (errMsg : String)
    (hfail : machineFailureMsg (ms.get ⟨k, hk⟩) = some errMsg)
    (hsib : ∀ j : Fin ms.length, (j : Nat) ≠ k → machineFailureMsg (ms.get j) = none) :
    (ms.map extractOne).length = ms.length ∧
    (ms.map extractOne).get? k = some ⟨some (ms.get ⟨k, hk⟩), none, some errMsg⟩ ∧
    (∀ j : Fin ms.length, (j : Nat) ≠ k →
      (ms.map extractOne).get? j =
        some ⟨some (ms.get j),
          if (ms.get j).isTyped then (ms.get j).typegen.toOption else none, none⟩) := by
  refine ⟨by simp, ?_, ?_⟩
  · rw [List.get?_map, List.get?_eq_get hk]
    have hfail2 : machineFailureMsg ms[k] = some errMsg := hfail
    simp [extractOne_eq, hfail2]
    intro hty
    simpa [hty] using types_none_of_fail ms[k] errMsg hfail2
  · intro j hj
    rw [List.get?_map, List.get?_eq_get j.isLt]
    have hs2 : machineFailureMsg ms[(j : Nat)] = none := hsib j hj
    simp [extractOne_eq, hs2]

/-- Witness for C6: three machines, the middle one failing with `boom`. -/
theorem c6_per_machine_isolation_witness :
    ([mPlain, mBadIntro, mTypedIn].map extractOne).length = 3 ∧
    ([mPlain, mBadIntro, mTypedIn].map extractOne).get? 1 =
      some ⟨some mBadIntro, none, some "boom"⟩ ∧
    ([mPlain, mBadIntro, mTypedIn].map extractOne).get? 2 =
      some ⟨some mTypedIn, some tdInSync, none⟩ := by
  have h := c6_per_machine_isolation [mPlain, mBadIntro, mTypedIn] 1 (by decide) "boom" rfl
    (by decide)
  refine ⟨h.1, h.2.1, ?_⟩
  have h2 := h.2.2 ⟨2, by decide⟩ (by decide)
  simpa using h2

theorem typesUpdatedEffects_eq (prev : Option CachedDocument) (uri : String)
    (types : List TypegenData) :
    typesUpdatedEffects prev uri types =
      if types.filter areTypesWritable ≠ [] ∧
          prev.map (fun pd =>
              (((pd.extractionResults.map ExtractionResult.types).filterMap id).filter
                areTypesWritable).map TypegenData.data) ≠
            some ((types.filter areTypesWritable).map TypegenData.data)
      then [Effect.typesUpdated uri types]
      else [] := by
  unfold typesUpdatedEffects
  by_cases h1 : types.filter areTypesWritable = []
  · simp [h1]
  · by_cases h2 : prev.map (fun pd =>
        (((pd.extractionResults.map ExtractionResult.types).filterMap id).filter
          areTypesWritable).map TypegenData.data) =
        some ((types.filter areTypesWritable).map TypegenData.data)
    · simp [h1, h2]
    · simp [h1, h2, List.length_eq_zero]

/-- Counterexample to C2 as stated, in two concrete runs. First run: the
previous batch has one in-sync machine, the current batch none (one
out-of-sync typed machine), so the in-sync sets differ in content, yet no
typesUpdated notification is sent (the code also requires the current
writable set to be nonempty). Second run: a notification is sent whose
payload contains the typegen data of every typed machine of the current
batch, including the out-of-sync `tdOutOfSync` — not exactly the in-sync
ones. -/
theorem c2_counterexample :
    (typesUpdatedIn (handleDocumentChange oOutOnly stPrevInSync "u" "T").2 = [] ∧
      [tdInSync].filter areTypesWritable = [tdInSync] ∧
      [tdOutOfSync].filter areTypesWritable = []) ∧
    (typesUpdatedIn (handleDocumentChange oInAndOut stEmpty "u" "T").2 =
        [Effect.typesUpdated "u" [tdInSync, tdOutOfSync]] ∧
      areTypesWritable tdOutOfSync = false) :=
  ⟨⟨rfl, rfl, rfl⟩, rfl, rfl⟩

/-- C2 as amended: on a pass that reaches the typegen step (extractor
yielded machines, no machine displayed), the typesUpdated notification
is sent iff the current in-sync (writable) set is nonempty and its data
differs from the previous cached batch's in-sync data, and the payload
carries the typegen data of all typed machines of the current batch,
in-sync or not. -/
theorem c2_types_updated_amended (o : Oracle) (st : ServerState) (uri text : String)
    (ms : List MachineResult)
    (hext : o.extract text = some ms) (hdisp : st.displayedMachine = none) :
    typesUpdatedIn (handleDocumentChange o st uri text).2 =
      if (((ms.map extractOne).map ExtractionResult.types).filterMap id).filter
            areTypesWritable ≠ [] ∧
          (mapGet st.documentsCache uri).map (fun pd =>
              (((pd.extractionResults.map ExtractionResult.types).filterMap id).filter
                areTypesWritable).map TypegenData.data) ≠
            some ((((((ms.map extractOne).map ExtractionResult.types).filterMap id).filter
              areTypesWritable)).map TypegenData.data)
      then [Effect.typesUpdated uri
        (((ms.map extractOne).map ExtractionResult.types).filterMap id)]
      else [] := by
  have hstep : displayedStep st (mapGet st.documentsCache uri) uri (ms.map extractOne) =
      .ok [] := by
    unfold displayedStep
    rw [hdisp]
  simp only [handleDocumentChange, hext, hstep, List.nil_append]
  rw [typesUpdatedIn, List.filter_append, typesUpdatedEffects_eq]
  by_cases hcond : (((ms.map extractOne).map ExtractionResult.types).filterMap id).filter
        areTypesWritable ≠ [] ∧
      (mapGet st.documentsCache uri).map (fun pd =>
          (((pd.extractionResults.map ExtractionResult.types).filterMap id).filter
            areTypesWritable).map TypegenData.data) ≠
        some ((((((ms.map extractOne).map ExtractionResult.types).filterMap id).filter
          areTypesWritable)).map TypegenData.data)
  · rw [if_pos hcond]
    rfl
  · rw [if_neg hcond]
    rfl

/-- Witness for the amended C2 theorem at the concrete second run. -/
theorem c2_types_updated_amended_witness :
    typesUpdatedIn (handleDocumentChange oInAndOut stEmpty "u" "T").2 =
      [Effect.typesUpdated "u" [tdInSync, tdOutOfSync]] := by
  have h := c2_types_updated_amended oInAndOut stEmpty "u" "T" [mTypedIn, mTypedOut] rfl rfl
  rw [h]
  decide

/-- C7: the add-missing-name edit follows the four-way decision of
`getTextEditsForImplementation`: no definition location, no edit; no
options object, insert a fresh options literal at the end of the
definition; options without the category (or with a location-less
category node), insert the category as the options object's first
property; category without the name, insert the name as the category's
first property; and (last conjunct, stated for an arbitrary shape, in
particular the re-extracted shape of the once-edited text, which records
the name) name already present, no edit — so the second application
leaves the text unchanged. -/
theorem c7_add_missing_name_decision (machine : MachineCallShape)
    (type : ImplementationType) (name text : String) :
    (machine.definitionLoc = none →
      getTextEditsForImplementation machine type name text = []) ∧
    (∀ defLoc, machine.definitionLoc = some defLoc → machine.options = none →
      getTextEditsForImplementation machine type name text =
        [⟨⟨defLoc.stop, defLoc.stop⟩, newOptionsText type name⟩]) ∧
    (∀ defLoc options, machine.definitionLoc = some defLoc → machine.options = some options →
      (options.category type).bind CategoryNode.loc = none →
      getTextEditsForImplementation machine type name text =
        [⟨options.loc, newCategoryText options.rawText type name⟩]) ∧
    (∀ defLoc options category categoryLoc, machine.definitionLoc = some defLoc →
      machine.options = some options → options.category type = some category →
      category.loc = some categoryLoc → name ∉ category.propertyKeys →
      getTextEditsForImplementation machine type name text =
        [⟨categoryLoc, newNameText category.rawText name⟩]) ∧
    (∀ machine2 type2 name2 text2 defLoc options category categoryLoc,
      machine2.definitionLoc = some defLoc → machine2.options = some options →
      options.category type2 = some category → category.loc = some categoryLoc →
      name2 ∈ category.propertyKeys →
      getTextEditsForImplementation machine2 type2 name2 text2 = []) := by
  refine ⟨?_, ?_, ?_, ?_, ?_⟩
  · intro h
    simp [getTextEditsForImplementation, h]
  · intro defLoc h1 h2
    simp [getTextEditsForImplementation, h1, h2]
  · intro defLoc options h1 h2 h3
    simp [getTextEditsForImplementation, h1, h2, h3]
  · intro defLoc options category categoryLoc h1 h2 h3 h4 h5
    simp [getTextEditsForImplementation, h1, h2, h3, h4, h5]
  · intro machine2 type2 name2 text2 defLoc options category categoryLoc h1 h2 h3 h4 h5
    simp [getTextEditsForImplementation, h1, h2, h3, h4, h5]

/-- Witness for C7 at a shape that already implements the name: no edit. -/
theorem c7_add_missing_name_decision_witness :
    getTextEditsForImplementation shapeWithWalk .actions "walk" "anyText" = [] := by
  have h := c7_add_missing_name_decision shapeWithWalk .actions "walk" "anyText"
  exact h.2.2.2.2 shapeWithWalk .actions "walk" "anyText" rangeC optsWithActions catWithWalk
    rangeA rfl rfl rfl rfl (by decide)

theorem foldl_jsSetAdd_eq {α : Type} [DecidableEq α] (l acc : List α) :
    l.foldl jsSetAdd acc = acc ++ firstSeenDedup (l.filter (fun b => decide (b ∉ acc))) := by
  induction l generalizing acc with
  | nil => simp [firstSeenDedup]
  | cons a l ih =>
    by_cases ha : a ∈ acc
    · have h1 : jsSetAdd acc a = acc := by simp [jsSetAdd, ha]
      have h2 : (a :: l).filter (fun b => decide (b ∉ acc)) =
          l.filter (fun b => decide (b ∉ acc)) := by
        simp [List.filter_cons, ha]
      rw [List.foldl_cons, h1, ih, h2]
    · have h1 : jsSetAdd acc a = acc ++ [a] := by simp [jsSetAdd, ha]
      have h2 : (a :: l).filter (fun b => decide (b ∉ acc)) =
          a :: l.filter (fun b => decide (b ∉ acc)) := by
        simp [List.filter_cons, ha]
      have h3 : l.filter (fun b => decide (b ∉ acc ++ [a])) =
          (l.filter (fun b => decide (b ∉ acc))).filter (fun b => !(b == a)) := by
        rw [List.filter_filter]
        apply List.filter_congr
        intro b _
        by_cases hb1 : b = a
        · simp [hb1]
        · by_cases hb2 : b ∈ acc <;> simp [hb1, hb2]
      rw [List.foldl_cons, h1, ih, h2, h3, firstSeenDedup]
      simp

theorem unique_eq_firstSeenDedup {α : Type} [DecidableEq α] (l : List α) :
    unique l = firstSeenDedup l := by
  unfold unique
  rw [foldl_jsSetAdd_eq]
  simp

theorem nodup_foldl_jsSetAdd {α : Type} [DecidableEq α] (l acc : List α) (h : acc.Nodup) :
    (l.foldl jsSetAdd acc).Nodup := by
  induction l generalizing acc with
  | nil => simpa
  | cons a l ih =>
    rw [List.foldl_cons]
    apply ih
    by_cases ha : a ∈ acc
    · simpa [jsSetAdd, ha]
    · simp [jsSetAdd, ha, List.nodup_append, h]

theorem mem_foldl_jsSetAdd {α : Type} [DecidableEq α] (l acc : List α) (b : α) :
    b ∈ l.foldl jsSetAdd acc ↔ b ∈ acc ∨ b ∈ l := by
  induction l generalizing acc with
  | nil => simp
  | cons a l ih =>
    rw [List.foldl_cons, ih]
    by_cases ha : a ∈ acc
    · simp [jsSetAdd, ha]
      constructor
      · tauto
      · rintro (hb | hb | hb) <;> try tauto
        subst hb
        tauto
    · simp [jsSetAdd, ha, List.mem_append]
      tauto

/-- C8: the synthesis pipeline is a pure function of its input, so two
runs on identical introspection lines render identical output; and each
event-name union is deduplicated by `unique` (`Array.from(new Set(...))`),
which equals the specification-worded first-seen deduplication: first
occurrences kept, in first-seen order, no duplicates, preserving exactly
the underlying membership (a union, not an arbitrary set order). -/
theorem c8_deterministic_event_order (lines lines2 : List IntrospectLine) (l : List String)
    (hsame : lines = lines2) :
    displayEventsCausing lines = displayEventsCausing lines2 ∧
    unique l = firstSeenDedup l ∧
    (unique l).Nodup ∧
    (∀ b, b ∈ unique l ↔ b ∈ l) := by
  refine ⟨by rw [hsame], unique_eq_firstSeenDedup l, nodup_foldl_jsSetAdd l [] (by simp), ?_⟩
  intro b
  simpa using mem_foldl_jsSetAdd l [] b

/-- Witness for C8 at a concrete duplicated event list. -/
theorem c8_deterministic_event_order_witness :
    displayEventsCausing [⟨"act", ["GO", "STOP", "GO"]⟩] =
      displayEventsCausing [⟨"act", ["GO", "STOP", "GO"]⟩] ∧
    unique ["GO", "STOP", "GO"] = firstSeenDedup ["GO", "STOP", "GO"] ∧
    (unique ["GO", "STOP", "GO"]).Nodup := by
  have h := c8_deterministic_event_order [⟨"act", ["GO", "STOP", "GO"]⟩]
    [⟨"act", ["GO", "STOP", "GO"]⟩] ["GO", "STOP", "GO"] rfl
  exact ⟨h.1, h.2.1, h.2.2.1⟩

/-- Counterexample to C9 as stated: an `error.platform` event name is
collected with `data: unknown` but with no `__tip` human hint at all
(`tip = none`), while the claim (and spec section 4.3) say the
platform-error prefix carries a data payload and a human hint like the
invocation-completion prefix does. -/
theorem c9_counterexample :
    strStartsWith "error.platform.fetchUser" "error.platform" = true ∧
    collectInternalEvents [[⟨"svc", ["error.platform.fetchUser"]⟩]] =
      [⟨"error.platform.fetchUser", true, none⟩] ∧
    classifyInternalEvent "error.platform.fetchUser" =
      some ⟨"error.platform.fetchUser", true, none⟩ :=
  ⟨rfl, rfl, rfl⟩

/-- C9 as amended: per collected event name, in source branch order: a
name matching the inline-invocation regex gets `data: unknown` and the
distinct naming advisory; otherwise a `done.invoke`-prefixed name gets
`data: unknown` and the provide-an-event hint; otherwise an
`xstate.`-prefixed or empty name gets no payload beyond its type;
otherwise an `error.platform`-prefixed name gets `data: unknown` and no
hint; and every entry of the collection arises this way from its own
name. -/
theorem c9_internal_events_amended (event : String)
    (lineArrays : List (List IntrospectLine)) :
    (inlineInvocationTest event = true →
      classifyInternalEvent event = some ⟨event, true, some inlineInvocationTip⟩) ∧
    (inlineInvocationTest event = false → strStartsWith event "done.invoke" = true →
      classifyInternalEvent event = some ⟨event, true, some (doneInvokeTip event)⟩) ∧
    (inlineInvocationTest event = false → strStartsWith event "done.invoke" = false →
      (strStartsWith event "xstate." || event == "") = true →
      classifyInternalEvent event = some ⟨event, false, none⟩) ∧
    (inlineInvocationTest event = false → strStartsWith event "done.invoke" = false →
      (strStartsWith event "xstate." || event == "") = false →
      strStartsWith event "error.platform" = true →
      classifyInternalEvent event = some ⟨event, true, none⟩) ∧
    (∀ entry, entry ∈ collectInternalEvents lineArrays →
      classifyInternalEvent entry.type = some entry) := by
  refine ⟨?_, ?_, ?_, ?_, ?_⟩
  · intro h
    simp [classifyInternalEvent, h]
  · intro h1 h2
    simp [classifyInternalEvent, h1, h2]
  · intro h1 h2 h3
    simp [classifyInternalEvent, h1, h2, h3]
  · intro h1 h2 h3 h4
    simp [classifyInternalEvent, h1, h2, h3, h4]
  · intro entry hmem
    unfold collectInternalEvents unique at hmem
    rcases (mem_foldl_jsSetAdd _ [] entry).mp hmem with hin | hin
    · simp at hin
    · rcases List.mem_filterMap.mp hin with ⟨ev, _, hev⟩
      have hev2 := hev
      unfold classifyInternalEvent at hev2
      split_ifs at hev2
      · injection hev2 with h
        subst h
        exact hev
      · injection hev2 with h
        subst h
        exact hev
      · injection hev2 with h
        subst h
        exact hev
      · injection hev2 with h
        subst h
        exact hev

/-- Witness for the amended C9 theorem at a concrete platform-error name. -/
theorem c9_internal_events_amended_witness :
    classifyInternalEvent "error.platform.fetchUser" =
      some ⟨"error.platform.fetchUser", true, none⟩ := by
  have h := c9_internal_events_amended "error.platform.fetchUser" []
  exact h.2.2.2.1 rfl rfl rfl rfl

/-- C10: a successful applyMachineEdits replaces only the displayed slot's
machineResult (re-extracted from the spliced post-edit text); the cached
documentText stays the pre-edit text, the slot's types and configError
stay as they were, and every other slot is untouched — so the cache holds
a mixed view of pre-edit text and post-edit machine until the next
content change. -/
theorem c10_apply_edits_frame (o : Oracle) (st : ServerState) (uri : String) (i : Nat)
    (cd : CachedDocument) (slot : ExtractionResult) (m : MachineResult) (edits : List String)
    (hdisp : st.displayedMachine = some (uri, i))
    (hcd : mapGet st.documentsCache uri = some cd)
    (hslot : cd.extractionResults.get? i = some slot)
    (hm : slot.machineResult = some m) :
    applyMachineEdits o st edits = .ok
      ({ st with documentsCache := mapSet st.documentsCache uri
                   (CachedDocument.mk cd.documentText
                     (cd.extractionResults.set i
                       (ExtractionResult.mk
                         (o.reExtract
                           (cd.documentText.take (o.modify m edits).startIndex ++
                             (o.modify m edits).newText ++
                             cd.documentText.drop (o.modify m edits).endIndex) i)
                         slot.types slot.configError))) },
        ⟨uri, (o.modify m edits).startIndex, (o.modify m edits).endIndex,
          (o.modify m edits).newText⟩) ∧
    (∀ j, j ≠ i →
      (cd.extractionResults.set i
        (ExtractionResult.mk
          (o.reExtract
            (cd.documentText.take (o.modify m edits).startIndex ++
              (o.modify m edits).newText ++
              cd.documentText.drop (o.modify m edits).endIndex) i)
          slot.types slot.configError)).get? j = cd.extractionResults.get? j) := by
  constructor
  · have hslot2 : cd.extractionResults[i]? = some slot := by
      simpa [List.get?_eq_getElem?] using hslot
    simp [applyMachineEdits, hdisp, hcd, hslot2, hm]
  · intro j hj
    exact List.get?_set_ne _ _ (Ne.symm hj)

/-- Witness for C10: text `abcdef`, edit replacing bytes 2 to 4 by `NEW`,
re-extraction yielding `mBadIntro`; slot 0 keeps its types and configError,
slot 1 is untouched, and documentText stays `abcdef`. -/
theorem c10_apply_edits_frame_witness :
    applyMachineEdits oApply stApply [] = .ok
      ({ stApply with documentsCache := mapSet stApply.documentsCache "file:doc"
                        (CachedDocument.mk "abcdef"
                          [⟨some mBadIntro, some tdInSync, none⟩,
                            ⟨some mTypedOut, some tdOutOfSync, some "e2"⟩]) },
        ⟨"file:doc", 2, 4, "NEW"⟩) := by
  have h := c10_apply_edits_frame oApply stApply "file:doc" 0
    ⟨"abcdef", [⟨some mPlain, some tdInSync, none⟩, ⟨some mTypedOut, some tdOutOfSync, some "e2"⟩]⟩
    ⟨some mPlain, some tdInSync, none⟩ mPlain [] rfl rfl rfl rfl
  exact h.1
